import Mathlib

/-!
Verification of the statespace tool runtime (toolfront repository).

We give a shallow embedding of the core modules of the repository
(crates/statespace-tool-runtime and crates/statespace-server) and prove
properties of the embedded definitions.  External engines (the regex crate,
serde decoders, the std IP parser, DNS, the filesystem, process spawning)
are passed in as explicit function parameters, so that every definition
stays executable and the control flow of the Rust source is translated
verbatim.
-/

namespace Toolfront

/-! ## String utilities (models of Rust str operations on List Char) -/

/-- Model of Rust str::contains for a pattern: is `pat` a contiguous
substring of `s`?  Defined structurally so that concrete instances
evaluate by `decide`. -/
def isSubstringL (pat : List Char) : List Char → Bool
  | [] => pat.isEmpty
  | c :: tail => pat.isPrefixOf (c :: tail) || isSubstringL pat tail

/-- Rust str::contains on strings. -/
def containsSub (s pat : String) : Bool :=
  isSubstringL pat.toList s.toList

/-- Decidable equality of Except values with decidable components, so
that concrete runtime results can be checked by decide. -/
instance {ε α : Type} [DecidableEq ε] [DecidableEq α] : DecidableEq (Except ε α) := fun x y =>
  match x, y with
  | .ok a, .ok b =>
    if h : a = b then .isTrue (by rw [h]) else .isFalse (by simp [h])
  | .error e, .error f =>
    if h : e = f then .isTrue (by rw [h]) else .isFalse (by simp [h])
  | .ok _, .error _ => .isFalse (by simp)
  | .error _, .ok _ => .isFalse (by simp)

/-- Index of the first occurrence of `pat` in `s` (Rust str::find with a
string pattern). -/
def findSubIdxL (pat : List Char) : List Char → Option Nat
  | [] => if pat.isEmpty then some 0 else none
  | c :: tail =>
    if pat.isPrefixOf (c :: tail) then some 0
    else (findSubIdxL pat tail).map (· + 1)

/-- Rust str::trim_start_matches for the single character given:
removes every leading occurrence. -/
def dropLeadingChars (ch : Char) (s : String) : String :=
  ⟨s.toList.dropWhile (· = ch)⟩

/-- Rust str::trim_start (leading whitespace removed). -/
def trimStartStr (s : String) : String :=
  ⟨s.toList.dropWhile Char.isWhitespace⟩

/-- Rust str::trim (leading and trailing whitespace removed). -/
def trimStr (s : String) : String :=
  ⟨(s.toList.dropWhile Char.isWhitespace).reverse.dropWhile Char.isWhitespace |>.reverse⟩

/-- Rust str::to_lowercase, on the ASCII range the runtime compares
(hostnames); defined characterwise so concrete instances evaluate. -/
def toLowerStr (s : String) : String :=
  ⟨s.toList.map Char.toLower⟩

/-- Rust str::to_uppercase on the ASCII range (HTTP method names). -/
def toUpperStr (s : String) : String :=
  ⟨s.toList.map Char.toUpper⟩

/-- The scanning loop of str::replace for a nonempty pattern.  The fuel
argument bounds the recursion (the caller passes the length of the list,
which suffices because every step consumes at least one character); the
recursion is structural so that concrete instances evaluate. -/
def replaceGo (pat rep : List Char) : Nat → List Char → List Char
  | _, [] => []
  | 0, s => s
  | fuel + 1, c :: tail =>
    if pat.isPrefixOf (c :: tail) then
      -- for nonempty pat, dropping pat.length from c :: tail is dropping
      -- pat.length - 1 from tail
      rep ++ replaceGo pat rep fuel (tail.drop (pat.length - 1))
    else
      c :: replaceGo pat rep fuel tail

/-- Model of Rust str::replace on character lists: every non-overlapping
occurrence of `pat` is replaced by `rep`, scanning left to right.  For the
empty pattern Rust matches at every char boundary; the call sites in the
runtime only ever use nonempty patterns. -/
def replaceAllL (pat rep : List Char) (s : List Char) : List Char :=
  if pat = [] then
    rep ++ s.foldr (fun c acc => c :: (rep ++ acc)) []
  else
    replaceGo pat rep s.length s

/-- Rust str::replace on strings: `replaceS s pat rep` replaces every
occurrence of `pat` in `s` by `rep`. -/
def replaceS (s pat rep : String) : String :=
  ⟨replaceAllL pat.toList rep.toList s.toList⟩

/-! ## spec.rs — tool specification model and matcher -/

/-- spec.rs CompiledRegex: the source pattern together with the compiled
matcher.  The regex engine is external; we retain its is_match behaviour
as a Boolean function on words. -/
structure CompiledRegex where
  pattern : String
  isMatch : String → Bool

/-- spec.rs ToolPart. -/
inductive ToolPart where
  | Literal (s : String)
  | Placeholder (regex : Option CompiledRegex)

/-- spec.rs ToolSpec. -/
structure ToolSpec where
  parts : List ToolPart
  options_disabled : Bool

/-- spec.rs SpecError. -/
inductive SpecError where
  | InvalidRegex (pattern message : String)
  | EmptySpec
  | InvalidPart (msg : String)

/-- Model of serde_json::Value restricted to the shapes the spec parser
distinguishes: strings, objects (ordered key/value entries), and anything
else carried with its rendered form for error messages. -/
inductive Json where
  | str (s : String)
  | obj (entries : List (String × Json))
  | other (rendered : String)

/-- serde_json::Value::as_str. -/
def Json.asStr? : Json → Option String
  | .str s => some s
  | _ => none

/-- serde_json::Map::get. -/
def Json.objGet (entries : List (String × Json)) (key : String) : Option Json :=
  (entries.find? (fun e => e.1 = key)).map (·.2)

/-- Debug rendering of the key list, as in format {:?} on Vec of keys. -/
def renderKeys (keys : List String) : String :=
  "[" ++ String.intercalate ", " (keys.map (fun k => "\"" ++ k ++ "\"")) ++ "]"

/-- spec.rs ToolSpec::parse_part, with the regex compiler passed in
(`compile p` is `Regex::new(p)`, `none` meaning a compile error whose
rendered message is supplied by `compileErr`). -/
def parse_part (compile : String → Option (String → Bool))
    (compileErr : String → String) : Json → Except SpecError ToolPart
  | .str s => .ok (.Literal s)
  | .obj entries =>
    if entries.isEmpty then
      .ok (.Placeholder none)
    else
      match (Json.objGet entries "regex").bind Json.asStr? with
      | some pattern =>
        match compile pattern with
        | some m => .ok (.Placeholder (some ⟨pattern, m⟩))
        | none => .error (.InvalidRegex pattern (compileErr pattern))
      | none => .error (.InvalidPart ("unknown object keys: " ++ renderKeys (entries.map (·.1))))
  | .other rendered => .error (.InvalidPart ("expected string or object, got: " ++ rendered))

/-- Except-valued map, mirroring collect over a Result iterator. -/
def mapExcept {α β ε : Type} (f : α → Except ε β) : List α → Except ε (List β)
  | [] => .ok []
  | a :: rest =>
    match f a with
    | .error e => .error e
    | .ok b =>
      match mapExcept f rest with
      | .error e => .error e
      | .ok bs => .ok (b :: bs)

/-- Whether a raw value is the sentinel string ";" (v.as_str() == Some(";")). -/
def isSemiJson (v : Json) : Bool :=
  v.asStr? = some ";"

/-- spec.rs ToolSpec::parse.  Note the source filters out every raw value
equal to the string ";" (not only a trailing one), while options_disabled
looks only at the last raw value. -/
def ToolSpec.parse (compile : String → Option (String → Bool))
    (compileErr : String → String) (raw : List Json) : Except SpecError ToolSpec :=
  if raw.isEmpty then
    .error .EmptySpec
  else
    match mapExcept (parse_part compile compileErr) (raw.filter (fun v => !isSemiJson v)) with
    | .error e => .error e
    | .ok parts =>
      if parts.isEmpty then .error .EmptySpec
      else .ok ⟨parts, raw.getLast?.any isSemiJson⟩

/-- One step of the loop body in spec.rs matches_spec. -/
def partAccepts : ToolPart → String → Bool
  | .Literal lit, w => w = lit
  | .Placeholder none, _ => true
  | .Placeholder (some compiled), w => compiled.isMatch w

/-- The indexed loop of matches_spec, walking parts against the command
prefix of the same length. -/
def matchesParts : List ToolPart → List String → Bool
  | [], _ => true
  | _ :: _, [] => false
  | p :: ps, w :: ws => partAccepts p w && matchesParts ps ws

/-- spec.rs matches_spec. -/
def matches_spec (command : List String) (spec : ToolSpec) : Bool :=
  if command.length < spec.parts.length then false
  else if command.length > spec.parts.length ∧ spec.options_disabled = true then false
  else matchesParts spec.parts command

/-- spec.rs is_valid_tool_call. -/
def is_valid_tool_call (command : List String) (specs : List ToolSpec) : Bool :=
  if command.isEmpty then false
  else specs.any (matches_spec command)

/-! ## error.rs — error taxonomy -/

/-- error.rs Error.  io::Error payloads are carried as rendered strings. -/
inductive Error where
  | InvalidCommand (msg : String)
  | CommandNotFound (command : String)
  | NoFrontmatter
  | FrontmatterParse (msg : String)
  | Timeout
  | OutputTooLarge (size limit : Nat)
  | PathTraversal (attempted boundary : String)
  | NotFound (path : String)
  | Security (msg : String)
  | Network (msg : String)
  | Io (msg : String)
  | Internal (msg : String)
deriving DecidableEq

/-- error.rs Error::user_message. -/
def Error.user_message : Error → String
  | .InvalidCommand msg => "Invalid command: " ++ msg
  | .CommandNotFound command => "Command '" ++ command ++ "' not allowed by frontmatter"
  | .NoFrontmatter => "No frontmatter found. Tools must be declared in YAML/TOML frontmatter."
  | .FrontmatterParse msg => "Frontmatter parse error: " ++ msg
  | .Timeout => "Tool execution timeout"
  | .OutputTooLarge size limit =>
    "Output too large: " ++ toString size ++ " bytes (limit: " ++ toString limit ++ " bytes)"
  | .PathTraversal attempted _ => "Access denied: cannot access '" ++ attempted ++ "'"
  | .NotFound path => "File not found: " ++ path
  | .Security msg => "Security violation: " ++ msg
  | .Network msg => "Network error: " ++ msg
  | .Io e => "IO error: " ++ e
  | .Internal _ => "Internal server error"

/-! ## validation.rs — substitution

The Rust functions iterate a HashMap whose iteration order is unspecified;
the embedding takes the map as an explicit association list so that an
iteration order is a parameter. -/

/-- Rust str::starts_with with a string pattern. -/
def strStartsWith (s pre : String) : Bool :=
  pre.toList.isPrefixOf s.toList

/-- The loop body of expand_placeholders for one (key, value) entry:
every occurrence of the literal substring "{key}" (with braces) in the
word is replaced by value. -/
def argStep (result : String) (kv : String × String) : String :=
  replaceS result ("\x7b" ++ kv.1 ++ "\x7d") kv.2

/-- The loop body of expand_env_vars for one (key, value) entry: every
occurrence of the literal substring "$key" in the word is replaced. -/
def envStep (result : String) (kv : String × String) : String :=
  replaceS result ("$" ++ kv.1) kv.2

/-- validation.rs expand_placeholders. -/
def expand_placeholders (args : List (String × String)) (command : List String) : List String :=
  command.map (fun part => args.foldl argStep part)

/-- validation.rs expand_env_vars. -/
def expand_env_vars (env : List (String × String)) (command : List String) : List String :=
  command.map (fun part => env.foldl envStep part)

/-! ## tools.rs — builtin tool dispatch (crates/statespace-tool-runtime) -/

/-- tools.rs HttpMethod. -/
inductive HttpMethod where
  | Get | Post | Put | Patch | Delete | Head | Options
deriving DecidableEq

/-- tools.rs HttpMethod::from_str (via str::to_uppercase). -/
def HttpMethod.fromStr (s : String) : Except Error HttpMethod :=
  match toUpperStr s with
  | "GET" => .ok .Get
  | "POST" => .ok .Post
  | "PUT" => .ok .Put
  | "PATCH" => .ok .Patch
  | "DELETE" => .ok .Delete
  | "HEAD" => .ok .Head
  | "OPTIONS" => .ok .Options
  | _ => .error (.InvalidCommand ("Unknown HTTP method: " ++ s))

/-- tools.rs BuiltinTool. -/
inductive BuiltinTool where
  | Glob (pattern : String)
  | Curl (url : String) (method : HttpMethod)
  | Exec (command : String) (args : List String)
deriving DecidableEq

/-- Accumulator of BuiltinTool::parse_curl: the partially parsed url and
method, plus the flag currently expecting a value. -/
structure CurlAcc where
  url : Option String
  method : Option String

/-- One step of the try_fold in BuiltinTool::parse_curl. -/
def curlStep (st : CurlAcc × Option String) (arg : String) :
    Except Error (CurlAcc × Option String) :=
  match st.2 with
  | some f =>
    if f = "-X" ∨ f = "--request" then .ok ({ st.1 with method := some arg }, none)
    else .error (.InvalidCommand ("Unknown flag: " ++ f))
  | none =>
    if arg = "-X" ∨ arg = "--request" then .ok (st.1, some arg)
    else if !strStartsWith arg "-" && st.1.url.isNone then
      .ok ({ st.1 with url := some arg }, none)
    else if strStartsWith arg "-" then
      .error (.InvalidCommand ("Unknown flag: " ++ arg))
    else .ok (st.1, none)

/-- tools.rs BuiltinTool::parse_curl. -/
def parse_curl (args : List String) : Except Error BuiltinTool := do
  let (acc, expecting) ← args.foldlM curlStep (⟨none, none⟩, none)
  match expecting with
  | some flag => .error (.InvalidCommand (flag ++ " requires a method argument"))
  | none =>
    match acc.url with
    | none => .error (.InvalidCommand "curl requires a URL argument")
    | some url =>
      match acc.method with
      | some m => do
        let method ← HttpMethod.fromStr m
        .ok (.Curl url method)
      | none => .ok (.Curl url .Get)

/-- tools.rs BuiltinTool::from_command (crates/statespace-tool-runtime
version: no secondary allowlist). -/
def from_command (command : List String) : Except Error BuiltinTool :=
  match command with
  | [] => .error (.InvalidCommand "Command cannot be empty")
  | first :: rest =>
    match first with
    | "glob" =>
      if command.length < 2 then
        .error (.InvalidCommand "glob requires a pattern argument")
      else
        .ok (.Glob (rest.headD ""))
    | "curl" => parse_curl rest
    | cmd => .ok (.Exec cmd rest)

/-! ## security.rs — SSRF defence -/

/-- IPv4 or IPv6 address (IPv6 as its eight 16-bit segments). -/
inductive IpAddr where
  | v4 (a b c d : Nat)
  | v6 (s0 s1 s2 s3 s4 s5 s6 s7 : Nat)
deriving DecidableEq

/-- Display of an address; IPv4 dotted quad as in Rust.  IPv6 is rendered
as colon-separated lowercase hex groups (Rust additionally compresses zero
runs; none of the verified properties depends on IPv6 rendering). -/
def ipRender : IpAddr → String
  | .v4 a b c d =>
    toString a ++ "." ++ toString b ++ "." ++ toString c ++ "." ++ toString d
  | .v6 s0 s1 s2 s3 s4 s5 s6 s7 =>
    String.intercalate ":" ([s0, s1, s2, s3, s4, s5, s6, s7].map
      (fun n => ⟨Nat.toDigits 16 n⟩))

/-- security.rs is_private_ipv4 (Ipv4Addr classification from std). -/
def is_private_ipv4 (a b c d : Nat) : Bool :=
  -- is_private
  (a = 10 ∨ (a = 172 ∧ 16 ≤ b ∧ b ≤ 31) ∨ (a = 192 ∧ b = 168))
  -- is_loopback
  || a = 127
  -- is_link_local
  || (a = 169 ∧ b = 254)
  -- is_broadcast
  || (a = 255 ∧ b = 255 ∧ c = 255 ∧ d = 255)
  -- is_documentation
  || ((a = 192 ∧ b = 0 ∧ c = 2) ∨ (a = 198 ∧ b = 51 ∧ c = 100) ∨ (a = 203 ∧ b = 0 ∧ c = 113))
  -- is_unspecified
  || (a = 0 ∧ b = 0 ∧ c = 0 ∧ d = 0)

/-- security.rs is_ipv4_mapped_private via Ipv6Addr::to_ipv4_mapped. -/
def is_ipv4_mapped_private (s0 s1 s2 s3 s4 s5 s6 s7 : Nat) : Bool :=
  if s0 = 0 ∧ s1 = 0 ∧ s2 = 0 ∧ s3 = 0 ∧ s4 = 0 ∧ s5 = 0xffff then
    is_private_ipv4 (s6 / 256) (s6 % 256) (s7 / 256) (s7 % 256)
  else false

/-- security.rs is_private_ipv6 (including the fdaa::/16 mesh whitelist). -/
def is_private_ipv6 (s0 s1 s2 s3 s4 s5 s6 s7 : Nat) : Bool :=
  if s0 = 0xfdaa then false  -- is_fly_6pn
  else
    -- is_loopback
    (s0 = 0 ∧ s1 = 0 ∧ s2 = 0 ∧ s3 = 0 ∧ s4 = 0 ∧ s5 = 0 ∧ s6 = 0 ∧ s7 = 1)
    -- is_unspecified
    || (s0 = 0 ∧ s1 = 0 ∧ s2 = 0 ∧ s3 = 0 ∧ s4 = 0 ∧ s5 = 0 ∧ s6 = 0 ∧ s7 = 0)
    -- is_unique_local (fc00::/7)
    || (s0 &&& 0xfe00) = 0xfc00
    -- is_unicast_link_local (fe80::/10)
    || (s0 &&& 0xffc0) = 0xfe80
    -- is_multicast (ff00::/8)
    || (s0 &&& 0xff00) = 0xff00
    -- is_ipv6_site_local (fec0..=feff)
    || (0xfec0 ≤ s0 ∧ s0 ≤ 0xfeff)
    || is_ipv4_mapped_private s0 s1 s2 s3 s4 s5 s6 s7

/-- security.rs is_private_or_restricted_ip. -/
def is_private_or_restricted_ip : IpAddr → Bool
  | .v4 a b c d => is_private_ipv4 a b c d
  | .v6 s0 s1 s2 s3 s4 s5 s6 s7 => is_private_ipv6 s0 s1 s2 s3 s4 s5 s6 s7

/-- security.rs is_localhost_name. -/
def is_localhost_name (host : String) : Bool :=
  toLowerStr host = "localhost" || toLowerStr host = "localhost.localdomain"

/-- security.rs is_metadata_service. -/
def is_metadata_service (host : String) : Bool :=
  host = "169.254.169.254" || host = "metadata.google.internal"

/-- The fields of a parsed reqwest::Url that the runtime reads; `rendered`
is the serialization passed to the HTTP client. -/
structure Url where
  scheme : String
  host : Option String
  port : Option Nat
  rendered : String

/-- reqwest::Url::port_or_known_default. -/
def Url.port_or_known_default (u : Url) : Option Nat :=
  match u.port with
  | some p => some p
  | none =>
    if u.scheme = "http" then some 80
    else if u.scheme = "https" then some 443
    else none

/-- security.rs validate_url_initial, with the URL parser and the std IP
parser passed in (`parseUrl` models reqwest::Url::parse including its
rendered error; `parseIp` models host.parse::<IpAddr>()). -/
def validate_url_initial (parseUrl : String → Except String Url)
    (parseIp : String → Option IpAddr) (url : String) : Except Error Url :=
  match parseUrl url with
  | .error e => .error (.InvalidCommand ("Invalid URL: " ++ e))
  | .ok parsed =>
    if parsed.scheme ≠ "http" ∧ parsed.scheme ≠ "https" then
      .error (.Security ("Only http/https schemes allowed, got: " ++ parsed.scheme))
    else
      match parsed.host with
      | none => .error (.InvalidCommand "URL must have a host")
      | some host =>
        if is_localhost_name host then
          .error (.Security ("Access to localhost is not allowed: " ++ host))
        else if is_metadata_service host then
          .error (.Security ("Access to metadata service blocked: " ++ host))
        else
          match parseIp host with
          | some ip =>
            if is_private_or_restricted_ip ip then
              .error (.Security ("Access to private/restricted IP blocked: " ++ ipRender ip))
            else .ok parsed
          | none => .ok parsed

/-! ## executor.rs — sandboxed execution -/

/-- executor.rs ExecutionLimits (the wall-clock timeout is concurrency and
stays outside the embedding). -/
structure ExecutionLimits where
  max_output_bytes : Nat
  max_list_items : Nat

/-- executor.rs FileInfo (modification time as an abstract stamp). -/
structure FileInfo where
  key : String
  size : Nat
  last_modified : Nat
deriving DecidableEq

/-- executor.rs ToolOutput. -/
inductive ToolOutput where
  | Text (s : String)
  | FileList (files : List FileInfo)
deriving DecidableEq

/-- Captured output of a finished subprocess, after the lossy UTF-8
decoding the executor applies. -/
structure SpawnOut where
  stdout : String
  stderr : String

/-- The per-argument safety loop at the head of execute_exec, returning
the message of the first failing check (absolute path first, then
traversal, per argument in order). -/
def exec_arg_check : List String → Option String
  | [] => none
  | a :: rest =>
    if strStartsWith a "/" then
      some ("Absolute paths not allowed in command arguments: " ++ a)
    else if containsSub a ".." then
      some ("Path traversal not allowed in command arguments: " ++ a)
    else exec_arg_check rest

/-- executor.rs ToolExecutor::execute_exec, with process spawning passed
in (`spawn cmd args` models Command::new(cmd).args(args)...output() in the
cleared environment; its error is the rendered io::Error). -/
def execute_exec (limits : ExecutionLimits)
    (spawn : String → List String → Except String SpawnOut)
    (command : String) (args : List String) : Except Error ToolOutput :=
  match exec_arg_check args with
  | some msg => .error (.Security msg)
  | none =>
    match spawn command args with
    | .error e => .error (.Internal ("Failed to execute " ++ command ++ ": " ++ e))
    | .ok out =>
      let result :=
        if out.stderr ≠ "" then
          (if out.stdout ≠ "" then out.stdout ++ "\n" else out.stdout) ++ out.stderr
        else out.stdout
      if limits.max_output_bytes < result.utf8ByteSize then
        .error (.OutputTooLarge result.utf8ByteSize limits.max_output_bytes)
      else .ok (.Text result)

/-- The post-DNS loop of execute_curl: the first resolved address that is
private or restricted, if any. -/
def firstPrivate : List IpAddr → Option IpAddr
  | [] => none
  | ip :: rest =>
    if is_private_or_restricted_ip ip then some ip else firstPrivate rest

/-- executor.rs ToolExecutor::execute_curl, with DNS and the HTTP client
passed in (`dns` models tokio lookup_host on "host:port"; `http` models
client construction, the request, and the body read, yielding the Error
those stages produce). -/
def execute_curl (limits : ExecutionLimits)
    (parseUrl : String → Except String Url) (parseIp : String → Option IpAddr)
    (dns : String → Except String (List IpAddr))
    (http : HttpMethod → String → Except Error String)
    (url : String) (method : HttpMethod) : Except Error ToolOutput :=
  match validate_url_initial parseUrl parseIp url with
  | .error e => .error e
  | .ok parsed =>
    match parsed.host with
    | none => .error (.InvalidCommand "URL has no host")
    | some host =>
      match parsed.port_or_known_default with
      | none => .error (.InvalidCommand "Could not determine port")
      | some port =>
        let addr_str := host ++ ":" ++ toString port
        match dns addr_str with
        | .error e => .error (.Network ("DNS resolution failed: " ++ e))
        | .ok addrs =>
          match firstPrivate addrs with
          | some ip => .error (.Security ("Access to private IP blocked: " ++ ipRender ip))
          | none =>
            match http method parsed.rendered with
            | .error e => .error e
            | .ok text =>
              if limits.max_output_bytes < text.utf8ByteSize then
                .error (.OutputTooLarge text.utf8ByteSize limits.max_output_bytes)
              else .ok (.Text text)

/-! ## content.rs — content resolver (crates/statespace-server) -/

/-- The filesystem operations the resolver performs, passed in as pure
functions: file/directory tests, canonicalization (None models an
io::Error), and reading a file to a UTF-8 string. -/
structure FS where
  isFile : String → Bool
  isDir : String → Bool
  canonicalize : String → Option String
  readToString : String → Except String String

/-- Path::starts_with, on the string form of paths. -/
def pathStartsWith (p base : String) : Bool :=
  base.toList.isPrefixOf p.toList

/-- Model of Rust Path::set_extension: trailing separators are skipped,
the extension of the final component (the part after its last dot, absent
when the only dot is leading) is removed, and "." plus the new extension
is appended; a path with no final component is returned unchanged. -/
def setExt (p : String) (ext : String) : String :=
  let base := (p.toList.reverse.dropWhile (· = '/')).reverse
  if base.isEmpty then p
  else
    let revBase := base.reverse
    let nameRev := revBase.takeWhile (· ≠ '/')
    let dir := (revBase.dropWhile (· ≠ '/')).reverse
    let afterDot := nameRev.dropWhile (· ≠ '.')
    let stemRev :=
      match afterDot with
      | [] => nameRev            -- no dot: no extension
      | _ :: [] => nameRev       -- only a leading dot: no extension
      | _ :: rest => rest        -- drop from the last dot on
    ⟨dir ++ stemRev.reverse⟩ ++ "." ++ ext

/-- content.rs LocalContentResolver::validate_path.  The stored root is
already canonical (the constructor canonicalizes it). -/
def validate_path (root requested : String) : Except Error String :=
  let requested := dropLeadingChars '/' requested
  if containsSub requested ".." then
    .error (.PathTraversal requested root)
  else
    .ok (if requested = "" then root else root ++ "/" ++ requested)

/-- content.rs LocalContentResolver::resolve_to_file. -/
def resolve_to_file (fs : FS) (target original : String) : Except Error String :=
  if fs.isFile target then .ok target
  else if fs.isDir target then
    let readme := target ++ "/README.md"
    if fs.isFile readme then .ok readme
    else .error (.NotFound original)
  else
    let with_md := setExt target "md"
    if fs.isFile with_md then .ok with_md
    else .error (.NotFound original)

/-- content.rs ContentResolver::resolve_path for LocalContentResolver. -/
def resolve_path (fs : FS) (root path : String) : Except Error String :=
  match validate_path root path with
  | .error e => .error e
  | .ok target =>
    match resolve_to_file fs target path with
    | .error e => .error e
    | .ok resolved =>
      match fs.canonicalize resolved with
      | none => .error (.NotFound path)
      | some resolvedC =>
        if !pathStartsWith resolvedC root then
          .error (.PathTraversal path root)
        else .ok resolvedC

/-- content.rs ContentResolver::resolve for LocalContentResolver (the
source duplicates the resolve_path flow and then reads the file). -/
def resolve (fs : FS) (root path : String) : Except Error String :=
  match validate_path root path with
  | .error e => .error e
  | .ok target =>
    match resolve_to_file fs target path with
    | .error e => .error e
    | .ok resolved =>
      match fs.canonicalize resolved with
      | none => .error (.NotFound path)
      | some resolvedC =>
        if !pathStartsWith resolvedC root then
          .error (.PathTraversal path root)
        else
          match fs.readToString resolvedC with
          | .error e => .error (.Io e)
          | .ok s => .ok s

/-! ## frontmatter.rs — front-matter extraction and decoding -/

/-- frontmatter.rs RawFrontmatter (the decoded top-level tools key). -/
structure RawFrontmatter where
  tools : List (List Json)

/-- frontmatter.rs Frontmatter. -/
structure Frontmatter where
  specs : List ToolSpec
  tools : List (List String)

/-- thiserror Display of SpecError. -/
def specErrorMessage : SpecError → String
  | .InvalidRegex p m => "invalid regex pattern '" ++ p ++ "': " ++ m
  | .EmptySpec => "empty tool specification"
  | .InvalidPart s => "invalid tool part: " ++ s

/-- The loop body of frontmatter.rs convert_raw over the raw tools. -/
def convert_go (compile : String → Option (String → Bool)) (compileErr : String → String) :
    List (List Json) → Except Error (List ToolSpec × List (List String))
  | [] => .ok ([], [])
  | tp :: rest =>
    match ToolSpec.parse compile compileErr tp with
    | .error e => .error (.FrontmatterParse ("Invalid tool spec: " ++ specErrorMessage e))
    | .ok spec =>
      match convert_go compile compileErr rest with
      | .error e => .error e
      | .ok (specs, tools) =>
        let legacy := tp.filterMap (fun v =>
          match v with
          | .str s => if s ≠ ";" then some s else none
          | _ => none)
        .ok (spec :: specs, if legacy.isEmpty then tools else legacy :: tools)

/-- frontmatter.rs convert_raw. -/
def convert_raw (compile : String → Option (String → Bool)) (compileErr : String → String)
    (raw : RawFrontmatter) : Except Error Frontmatter :=
  match convert_go compile compileErr raw.tools with
  | .error e => .error e
  | .ok (specs, tools) => .ok ⟨specs, tools⟩

/-- frontmatter.rs extract_yaml_frontmatter: the head (after leading
whitespace) must start with the three characters "---"; the inner text
runs from there to the first occurrence of newline-"---", trimmed. -/
def extract_yaml_frontmatter (content : String) : Option String :=
  let trimmed := trimStartStr content
  if !strStartsWith trimmed "---" then none
  else
    let after_open := trimmed.toList.drop 3
    (findSubIdxL "\n---".toList after_open).map (fun i => trimStr ⟨after_open.take i⟩)

/-- frontmatter.rs extract_toml_frontmatter. -/
def extract_toml_frontmatter (content : String) : Option String :=
  let trimmed := trimStartStr content
  if !strStartsWith trimmed "+++" then none
  else
    let after_open := trimmed.toList.drop 3
    (findSubIdxL "\n+++".toList after_open).map (fun i => trimStr ⟨after_open.take i⟩)

/-- frontmatter.rs parse_yaml, with the serde_yaml decoder passed in. -/
def parse_yaml (compile : String → Option (String → Bool)) (compileErr : String → String)
    (yd : String → Except String RawFrontmatter) (content : String) :
    Except Error Frontmatter :=
  match yd content with
  | .error e => .error (.FrontmatterParse ("YAML parse error: " ++ e))
  | .ok raw => convert_raw compile compileErr raw

/-- frontmatter.rs parse_toml, with the toml decoder passed in. -/
def parse_toml (compile : String → Option (String → Bool)) (compileErr : String → String)
    (td : String → Except String RawFrontmatter) (content : String) :
    Except Error Frontmatter :=
  match td content with
  | .error e => .error (.FrontmatterParse ("TOML parse error: " ++ e))
  | .ok raw => convert_raw compile compileErr raw

/-- frontmatter.rs parse_frontmatter. -/
def parse_frontmatter (compile : String → Option (String → Bool)) (compileErr : String → String)
    (yd td : String → Except String RawFrontmatter) (content : String) :
    Except Error Frontmatter :=
  match extract_yaml_frontmatter content with
  | some y => parse_yaml compile compileErr yd y
  | none =>
    match extract_toml_frontmatter content with
    | some t => parse_toml compile compileErr td t
    | none => .error .NoFrontmatter

/-! ## Auxiliary vocabulary for stating the claims -/

/-- The target path that validate_path computes for a request without a
traversal sequence: the root itself for an empty (stripped) request,
otherwise root joined with the stripped request. -/
def mkTarget (root p : String) : String :=
  let r := dropLeadingChars '/' p
  if r = "" then root else root ++ "/" ++ r

/-- Modelled from the spec: the resolution order stated by the spec and
claim C6 for resolve_to_file, where the markdown fallback APPENDS the
suffix ".md" to the request and a directory without README.md falls
through to that fallback.  Kept for comparison with the source
resolve_to_file (which uses Path::set_extension and returns NotFound for
a directory without README.md). -/
def resolve_to_file_claim (fs : FS) (target original : String) : Except Error String :=
  if fs.isFile target then .ok target
  else if fs.isDir target && fs.isFile (target ++ "/README.md") then
    .ok (target ++ "/README.md")
  else if fs.isFile (target ++ ".md") then .ok (target ++ ".md")
  else .error (.NotFound original)

/-- Decomposition of a character list at every occurrence of a separator
(used only to state line-shape properties of documents). -/
def splitOnChar (ch : Char) : List Char → List (List Char)
  | [] => [[]]
  | c :: tl =>
    if c = ch then [] :: splitOnChar ch tl
    else
      match splitOnChar ch tl with
      | [] => [[c]]
      | h :: t => (c :: h) :: t

/-- The lines of a string (split at every newline). -/
def linesOf (s : String) : List String :=
  (splitOnChar '\n' s.toList).map (fun l => (⟨l⟩ : String))

/-! ## Helper lemmas -/

/-- The loop of matches_spec accepts exactly when every part accepts the
command word at its index, provided the command is at least as long as
the parts list. -/
lemma matchesParts_iff : ∀ (ps : List ToolPart) (ws : List String),
    ps.length ≤ ws.length →
    (matchesParts ps ws = true ↔
      ∀ (i : Nat) (hp : i < ps.length) (hc : i < ws.length),
        partAccepts (ps.get ⟨i, hp⟩) (ws.get ⟨i, hc⟩) = true)
  | [], ws, _ => by simp [matchesParts]
  | p :: ps, [], h => by simp at h
  | p :: ps, w :: ws, h => by
    simp only [matchesParts, Bool.and_eq_true]
    constructor
    · rintro ⟨h1, h2⟩ i hp hc
      cases i with
      | zero => exact h1
      | succ n =>
        exact (matchesParts_iff ps ws (by simpa using h)).1 h2 n
          (by simpa using hp) (by simpa using hc)
    · intro hall
      refine ⟨hall 0 (by simp) (by simp), (matchesParts_iff ps ws (by simpa using h)).2 ?_⟩
      intro n hp hc
      exact hall (n + 1) (by simpa using hp) (by simpa using hc)

/-- matches_spec accepts exactly under the length conditions and the
per-index acceptance of the claim. -/
lemma matches_spec_iff (command : List String) (spec : ToolSpec) :
    matches_spec command spec = true ↔
      (spec.parts.length ≤ command.length ∧
       (command.length = spec.parts.length ∨ spec.options_disabled = false) ∧
       ∀ (i : Nat) (hp : i < spec.parts.length) (hc : i < command.length),
         partAccepts (spec.parts.get ⟨i, hp⟩) (command.get ⟨i, hc⟩) = true) := by
  unfold matches_spec
  by_cases h1 : command.length < spec.parts.length
  · rw [if_pos h1]
    simp only [Bool.false_eq_true, false_iff]
    rintro ⟨hle, _⟩
    omega
  · rw [if_neg h1]
    have hle : spec.parts.length ≤ command.length := Nat.le_of_not_lt h1
    by_cases h2 : command.length > spec.parts.length ∧ spec.options_disabled = true
    · rw [if_pos h2]
      simp only [Bool.false_eq_true, false_iff]
      rintro ⟨_, hor, _⟩
      rcases hor with he | hf
      · omega
      · rw [h2.2] at hf
        exact Bool.noConfusion hf
    · rw [if_neg h2]
      rw [matchesParts_iff _ _ hle]
      constructor
      · intro h3
        refine ⟨hle, ?_, h3⟩
        by_cases he : command.length = spec.parts.length
        · exact Or.inl he
        · right
          cases hod : spec.options_disabled with
          | false => rfl
          | true => exact absurd ⟨by omega, hod⟩ h2
      · rintro ⟨_, _, h3⟩
        exact h3

/-- A successful mapExcept sends every successfully mapped member of the
input to a member of the output. -/
lemma mapExcept_ok_mem {α β ε : Type} (f : α → Except ε β) :
    ∀ (l : List α) (bs : List β), mapExcept f l = .ok bs →
      ∀ a ∈ l, ∀ b, f a = .ok b → b ∈ bs
  | [], bs, _, a, ha => by simp at ha
  | x :: xs, bs, h, a, ha => by
    intro b hb
    unfold mapExcept at h
    cases hfx : f x with
    | error e => rw [hfx] at h; exact absurd h (by simp)
    | ok bx =>
      rw [hfx] at h
      cases hrest : mapExcept f xs with
      | error e => rw [hrest] at h; exact absurd h (by simp)
      | ok bxs =>
        rw [hrest] at h
        have hbs : bx :: bxs = bs := by
          simpa using h
        rcases List.mem_cons.mp ha with rfl | hmem
        · rw [hfx] at hb
          have : bx = b := by simpa using hb
          rw [← hbs, ← this]
          exact List.mem_cons_self _ _
        · have := mapExcept_ok_mem f xs bxs hrest a hmem b hb
          rw [← hbs]
          exact List.mem_cons_of_mem _ this

/-! ## Claim theorems -/

/-- C2: is_valid_tool_call rejects the empty command before trying any
spec, and otherwise the command is valid iff some spec of the document
matches it, where a spec matches exactly when the command is at least as
long as its parts, extra words are only allowed when options_disabled is
false, and every part accepts the command word at its index (Literal by
equality, unconstrained Placeholder always, regex Placeholder by its
compiled is_match). -/
theorem matcher_characterization (command : List String) (specs : List ToolSpec) :
    (is_valid_tool_call [] specs = false) ∧
    (is_valid_tool_call command specs = true ↔
      command ≠ [] ∧ ∃ spec ∈ specs,
        spec.parts.length ≤ command.length ∧
        (command.length = spec.parts.length ∨ spec.options_disabled = false) ∧
        ∀ (i : Nat) (hp : i < spec.parts.length) (hc : i < command.length),
          partAccepts (spec.parts.get ⟨i, hp⟩) (command.get ⟨i, hc⟩) = true) := by
  constructor
  · simp [is_valid_tool_call]
  · unfold is_valid_tool_call
    by_cases hc : command.isEmpty
    · rw [if_pos hc]
      simp [List.isEmpty_iff.mp hc]
    · rw [if_neg hc]
      rw [List.any_eq_true]
      rw [List.isEmpty_iff] at hc
      constructor
      · rintro ⟨spec, hmem, hm⟩
        exact ⟨hc, spec, hmem, (matches_spec_iff _ _).1 hm⟩
      · rintro ⟨_, spec, hmem, h3⟩
        exact ⟨spec, hmem, (matches_spec_iff _ _).2 h3⟩

/-- Witness for C2 at a concrete command and spec list. -/
theorem matcher_characterization_witness :
    is_valid_tool_call ["ls", "-la"] [⟨[.Literal "ls"], false⟩] = true := by
  refine (matcher_characterization ["ls", "-la"] [⟨[.Literal "ls"], false⟩]).2.mpr ?_
  refine ⟨by decide, ⟨[.Literal "ls"], false⟩, List.mem_singleton.mpr rfl,
    by decide, Or.inr rfl, ?_⟩
  intro i hp hc
  have hi : i = 0 := Nat.lt_one_iff.mp (by simpa using hp)
  subst hi
  rfl

/-- C5 (amended): ToolSpec::parse sets options_disabled exactly when the
last raw value is the string ";", and drops EVERY raw value equal to ";"
wherever it occurs; every remaining string value is mapped to a Literal
part. -/
theorem toolspec_parse_sentinel (compile : String → Option (String → Bool))
    (compileErr : String → String) (raw : List Json) (spec : ToolSpec)
    (h : ToolSpec.parse compile compileErr raw = .ok spec) :
    spec.options_disabled = raw.getLast?.any isSemiJson ∧
    mapExcept (parse_part compile compileErr) (raw.filter (fun v => !isSemiJson v))
      = .ok spec.parts ∧
    spec.parts ≠ [] ∧
    (∀ s : String, Json.str s ∈ raw → s ≠ ";" → ToolPart.Literal s ∈ spec.parts) := by
  unfold ToolSpec.parse at h
  by_cases hemp : raw.isEmpty
  · rw [if_pos hemp] at h
    exact absurd h (by simp)
  · rw [if_neg hemp] at h
    split at h
    · exact absurd h (by simp)
    · rename_i parts hmap
      by_cases hpe : parts.isEmpty
      · rw [if_pos hpe] at h
        exact absurd h (by simp)
      · rw [if_neg hpe] at h
        have hspec : spec = ⟨parts, raw.getLast?.any isSemiJson⟩ := (Except.ok.inj h).symm
        subst hspec
        refine ⟨rfl, hmap, by simpa [List.isEmpty_iff] using hpe, ?_⟩
        intro s hs hne
        refine mapExcept_ok_mem _ _ _ hmap (Json.str s) ?_ _ rfl
        refine List.mem_filter.mpr ⟨hs, ?_⟩
        simp [isSemiJson, Json.asStr?, hne]

/-- Witness for C5 at a concrete raw spec with a trailing sentinel. -/
theorem toolspec_parse_sentinel_witness :
    (⟨[.Literal "ls"], true⟩ : ToolSpec).options_disabled
        = ([Json.str "ls", Json.str ";"]).getLast?.any isSemiJson ∧
    mapExcept (parse_part (fun _ => none) (fun _ => ""))
        ([Json.str "ls", Json.str ";"].filter (fun v => !isSemiJson v))
      = .ok (⟨[.Literal "ls"], true⟩ : ToolSpec).parts ∧
    (⟨[.Literal "ls"], true⟩ : ToolSpec).parts ≠ [] ∧
    (∀ s : String, Json.str s ∈ [Json.str "ls", Json.str ";"] → s ≠ ";" →
      ToolPart.Literal s ∈ (⟨[.Literal "ls"], true⟩ : ToolSpec).parts) :=
  toolspec_parse_sentinel (fun _ => none) (fun _ => "")
    [Json.str "ls", Json.str ";"] ⟨[.Literal "ls"], true⟩ rfl

/-- Counterexample to C5 as stated: a ";" in a non-final position is
dropped by the source (it filters every ";"), not kept as a Literal part. -/
theorem toolspec_parse_sentinel_cex :
    ToolSpec.parse (fun _ => none) (fun _ => "") [.str "ls", .str ";", .str "cat"]
      = .ok ⟨[.Literal "ls", .Literal "cat"], false⟩ ∧
    ToolSpec.parse (fun _ => none) (fun _ => "") [.str "ls", .str ";", .str "cat"]
      ≠ .ok ⟨[.Literal "ls", .Literal ";", .Literal "cat"], false⟩ := by
  refine ⟨rfl, fun h => ?_⟩
  have e0 : ToolSpec.parse (fun _ => none) (fun _ => "") [.str "ls", .str ";", .str "cat"]
      = .ok (⟨[.Literal "ls", .Literal "cat"], false⟩ : ToolSpec) := rfl
  have e := Except.ok.inj (e0.symm.trans h)
  have := congrArg (fun s : ToolSpec => s.parts.length) e
  simp at this

/-- C10: the two substitution passes keep exactly one output word per
input word, and the word at each index is a function of only the input
word at that index and the map; in particular substituted values with
spaces (or empty values) never split, merge, add, or remove words. -/
theorem expand_wordwise (args env : List (String × String)) (cmd : List String) :
    (expand_placeholders args cmd).length = cmd.length ∧
    (expand_env_vars env cmd).length = cmd.length ∧
    (∀ (i : Nat) (hc : i < cmd.length) (he : i < (expand_placeholders args cmd).length),
      (expand_placeholders args cmd).get ⟨i, he⟩ = args.foldl argStep (cmd.get ⟨i, hc⟩)) ∧
    (∀ (i : Nat) (hc : i < cmd.length) (he : i < (expand_env_vars env cmd).length),
      (expand_env_vars env cmd).get ⟨i, he⟩ = env.foldl envStep (cmd.get ⟨i, hc⟩)) := by
  refine ⟨List.length_map _ _, List.length_map _ _, ?_, ?_⟩
  · intro i hc he
    simp [expand_placeholders]
  · intro i hc he
    simp [expand_env_vars]

/-- Witness for C10: one concrete word, value containing a space. -/
theorem expand_wordwise_witness :
    (expand_placeholders [("a", "b c")] ["x\x7ba\x7d", "y"]).length
        = (["x\x7ba\x7d", "y"] : List String).length ∧
    (expand_placeholders [("a", "b c")] ["x\x7ba\x7d", "y"]).get ⟨0, by decide⟩ = "xb c" :=
  ⟨(expand_wordwise [("a", "b c")] [] ["x\x7ba\x7d", "y"]).1,
   ((expand_wordwise [("a", "b c")] [] ["x\x7ba\x7d", "y"]).2.2.1 0 (by decide)
     (by decide)).trans (by decide)⟩

/-- Folding pairwise-commuting steps is invariant under permutation of
the list. -/
lemma foldl_perm_of_comm {α β : Type} (f : β → α → β) :
    ∀ {l₁ l₂ : List α}, l₁.Perm l₂ →
      (∀ a ∈ l₁, ∀ b ∈ l₁, ∀ x : β, f (f x a) b = f (f x b) a) →
      ∀ x : β, l₁.foldl f x = l₂.foldl f x := by
  intro l₁ l₂ hperm
  induction hperm with
  | nil => intro _ x; rfl
  | cons a h ih =>
    intro hcomm x
    simp only [List.foldl_cons]
    exact ih (fun p hp q hq y =>
      hcomm p (List.mem_cons_of_mem _ hp) q (List.mem_cons_of_mem _ hq) y) (f x a)
  | swap a b l =>
    intro hcomm x
    simp only [List.foldl_cons]
    rw [hcomm b (by simp) a (by simp) x]
  | trans h₁ h₂ ih₁ ih₂ =>
    intro hcomm x
    rw [ih₁ hcomm x]
    exact ih₂ (fun p hp q hq y =>
      hcomm p (h₁.mem_iff.mpr hp) q (h₁.mem_iff.mpr hq) y) x

/-- C8 (amended): substitution is iteration-order independent whenever
the per-key replacement steps commute pairwise as word transformations
(in general iteration order can change the result, as the counterexample
with an env key that is a prefix of another shows). -/
theorem expand_order_amended (cmd : List String)
    (args₁ args₂ env₁ env₂ : List (String × String))
    (ha : args₁.Perm args₂) (he : env₁.Perm env₂)
    (hca : ∀ p ∈ args₁, ∀ q ∈ args₁, ∀ w : String,
      argStep (argStep w p) q = argStep (argStep w q) p)
    (hce : ∀ p ∈ env₁, ∀ q ∈ env₁, ∀ w : String,
      envStep (envStep w p) q = envStep (envStep w q) p) :
    expand_env_vars env₁ (expand_placeholders args₁ cmd)
      = expand_env_vars env₂ (expand_placeholders args₂ cmd) := by
  unfold expand_env_vars expand_placeholders
  rw [List.map_map, List.map_map]
  refine List.map_congr_left ?_
  intro w _
  simp only [Function.comp_apply]
  rw [foldl_perm_of_comm argStep ha hca w]
  exact foldl_perm_of_comm envStep he hce _

/-- Witness for C8 (amended) at singleton maps, where the commutation
hypotheses hold definitionally. -/
theorem expand_order_amended_witness :
    expand_env_vars [("B", "2")] (expand_placeholders [("a", "1")] ["\x7ba\x7d $B"])
      = expand_env_vars [("B", "2")] (expand_placeholders [("a", "1")] ["\x7ba\x7d $B"]) :=
  expand_order_amended ["\x7ba\x7d $B"] [("a", "1")] [("a", "1")] [("B", "2")] [("B", "2")]
    (List.Perm.refl _) (List.Perm.refl _)
    (fun p hp q hq _ => by rw [List.mem_singleton.mp hp, List.mem_singleton.mp hq])
    (fun p hp q hq _ => by rw [List.mem_singleton.mp hp, List.mem_singleton.mp hq])

/-- Counterexample to C8 as stated: with env keys A and AB (one a prefix
of the other), the two iteration orders of the same map give different
outputs on the word "$AB". -/
theorem expand_order_cex :
    ([("A", "x"), ("AB", "y")] : List (String × String)).Perm [("AB", "y"), ("A", "x")] ∧
    expand_env_vars [("A", "x"), ("AB", "y")] ["$AB"]
      ≠ expand_env_vars [("AB", "y"), ("A", "x")] ["$AB"] :=
  ⟨List.Perm.swap _ _ _, by decide⟩

/-- The argument check of execute_exec passes exactly when no argument
starts with a slash or contains a dot-dot. -/
lemma exec_arg_check_none_iff (args : List String) :
    exec_arg_check args = none ↔
      ∀ a ∈ args, strStartsWith a "/" = false ∧ containsSub a ".." = false := by
  induction args with
  | nil => simp [exec_arg_check]
  | cons a rest ih =>
    unfold exec_arg_check
    cases h1 : strStartsWith a "/" with
    | true => simp [h1]
    | false =>
      cases h2 : containsSub a ".." with
      | true => simp [h1, h2]
      | false => simp [h1, h2, List.forall_mem_cons, ih]

/-- C3: execute_exec fails with a Security error exactly when some
argument starts with "/" or contains "..", in which case the outcome does
not depend on the spawned process at all (the check precedes the spawn);
and when no argument is flagged the Security branch is never taken. -/
theorem exec_security_args (limits : ExecutionLimits)
    (spawn spawn2 : String → List String → Except String SpawnOut)
    (command : String) (args : List String) :
    ((∃ a ∈ args, strStartsWith a "/" = true ∨ containsSub a ".." = true) ↔
      exec_arg_check args ≠ none) ∧
    (∀ msg, exec_arg_check args = some msg →
      execute_exec limits spawn command args = .error (.Security msg) ∧
      execute_exec limits spawn command args = execute_exec limits spawn2 command args) ∧
    (exec_arg_check args = none →
      ∀ msg, execute_exec limits spawn command args ≠ .error (.Security msg)) := by
  refine ⟨?_, ?_, ?_⟩
  · rw [Ne, exec_arg_check_none_iff]
    constructor
    · rintro ⟨a, ha, hor⟩ hall
      rcases hor with h | h
      · rw [(hall a ha).1] at h
        exact Bool.noConfusion h
      · rw [(hall a ha).2] at h
        exact Bool.noConfusion h
    · intro h
      by_contra hno
      push_neg at hno
      apply h
      intro a ha
      exact ⟨Bool.eq_false_iff.mpr (hno a ha).1, Bool.eq_false_iff.mpr (hno a ha).2⟩
  · intro msg hmsg
    constructor
    · simp [execute_exec, hmsg]
    · simp [execute_exec, hmsg]
  · intro hnone msg
    simp only [execute_exec, hnone]
    cases hsp : spawn command args with
    | error e => simp
    | ok out =>
      split
      · simp
      · repeat' split
        all_goals simp

/-- Witness for C3 at a concrete traversal argument and two different
spawn behaviours. -/
theorem exec_security_args_witness :
    execute_exec ⟨100, 10⟩ (fun _ _ => .ok ⟨"out", ""⟩) "cat" ["../../etc/passwd"]
      = .error (.Security "Path traversal not allowed in command arguments: ../../etc/passwd") ∧
    execute_exec ⟨100, 10⟩ (fun _ _ => .ok ⟨"out", ""⟩) "cat" ["../../etc/passwd"]
      = execute_exec ⟨100, 10⟩ (fun _ _ => .error "io fail") "cat" ["../../etc/passwd"] :=
  (exec_security_args ⟨100, 10⟩ (fun _ _ => .ok ⟨"out", ""⟩) (fun _ _ => .error "io fail")
    "cat" ["../../etc/passwd"]).2.1
    "Path traversal not allowed in command arguments: ../../etc/passwd" (by decide)

/-- C7: for any first word other than "glob" and "curl", from_command
dispatches to Exec with that word as the command and the remaining words
as arguments — there is no secondary allowlist of command names. -/
theorem from_command_no_allowlist (first : String) (rest : List String)
    (h1 : first ≠ "glob") (h2 : first ≠ "curl") :
    from_command (first :: rest) = .ok (.Exec first rest) := by
  simp [from_command, h1, h2]

/-- Witness for C7 at a first word outside any allowlist. -/
theorem from_command_no_allowlist_witness :
    from_command ["python3", "-c", "print(1)"] = .ok (.Exec "python3" ["-c", "print(1)"]) :=
  from_command_no_allowlist "python3" ["-c", "print(1)"] (by decide) (by decide)

/-- A nonempty prefix of a cons shares its head. -/
lemma isPrefixOf_cons_head {pat : List Char} {c : Char} {tl : List Char}
    (h : pat.isPrefixOf (c :: tl) = true) : pat = [] ∨ ∃ rest, pat = c :: rest := by
  cases pat with
  | nil => exact Or.inl rfl
  | cons p ps =>
    right
    simp only [List.isPrefixOf, Bool.and_eq_true, beq_iff_eq] at h
    exact ⟨ps, by rw [h.1]⟩

/-- Substring occurrences of a pattern without slashes survive stripping
leading slashes. -/
lemma isSubstringL_dropWhile_slash {pat : List Char} (hne : pat ≠ [])
    (hns : Char.ofNat 47 ∉ pat) :
    ∀ l : List Char, isSubstringL pat l = true →
      isSubstringL pat (l.dropWhile (· = Char.ofNat 47)) = true := by
  intro l
  induction l with
  | nil =>
    intro h
    rw [isSubstringL] at h
    rw [List.isEmpty_iff] at h
    exact absurd h hne
  | cons c tl ih =>
    intro h
    by_cases hc : c = Char.ofNat 47
    · subst hc
      rw [List.dropWhile_cons_of_pos (by simp)]
      apply ih
      rw [isSubstringL, Bool.or_eq_true] at h
      rcases h with hp | hs
      · rcases isPrefixOf_cons_head hp with rfl | ⟨rest, rfl⟩
        · exact absurd rfl hne
        · exact absurd (List.mem_cons_self _ _) hns
      · exact hs
    · rw [List.dropWhile_cons_of_neg (by simpa using hc)]
      exact h

/-- A request containing ".." still contains it after the resolver strips
leading slashes. -/
lemma containsSub_dropLeadingSlashes (p : String)
    (h : containsSub p ".." = true) :
    containsSub (dropLeadingChars '/' p) ".." = true := by
  have := @isSubstringL_dropWhile_slash "..".toList (by decide) (by decide) p.toList h
  simpa [containsSub, dropLeadingChars] using this

/-- C1: both resolver operations only ever yield canonicalized paths that
start with the (canonical) content root, and a request path containing
".." anywhere fails with PathTraversal for every filesystem — i.e. before
any filesystem lookup. -/
theorem content_resolver_confined (fs : FS) (root p : String) :
    (∀ q, resolve_path fs root p = .ok q → pathStartsWith q root = true) ∧
    (∀ s, resolve fs root p = .ok s →
      ∃ q, pathStartsWith q root = true ∧ fs.readToString q = .ok s) ∧
    (containsSub p ".." = true →
      resolve_path fs root p = .error (.PathTraversal (dropLeadingChars '/' p) root) ∧
      resolve fs root p = .error (.PathTraversal (dropLeadingChars '/' p) root)) := by
  refine ⟨?_, ?_, ?_⟩
  · intro q hq
    unfold resolve_path at hq
    split at hq
    · exact absurd hq (by simp)
    · split at hq
      · exact absurd hq (by simp)
      · split at hq
        · exact absurd hq (by simp)
        · split at hq
          · exact absurd hq (by simp)
          · rename_i hpf
            have hcq := Except.ok.inj hq
            subst hcq
            simpa using hpf
  · intro s hs
    unfold resolve at hs
    split at hs
    · exact absurd hs (by simp)
    · split at hs
      · exact absurd hs (by simp)
      · split at hs
        · exact absurd hs (by simp)
        · split at hs
          · exact absurd hs (by simp)
          · rename_i c hc hpf
            split at hs
            · exact absurd hs (by simp)
            · rename_i s2 hread
              have hss := Except.ok.inj hs
              subst hss
              exact ⟨c, by simpa using hpf, hread⟩
  · intro hdd
    have hdd2 := containsSub_dropLeadingSlashes p hdd
    constructor
    · simp [resolve_path, validate_path, hdd2]
    · simp [resolve, validate_path, hdd2]

/-- Witness for C1 at a traversal request against a filesystem with no
entries at all (showing the rejection consults nothing). -/
theorem content_resolver_confined_witness :
    resolve_path ⟨fun _ => false, fun _ => false, fun _ => none, fun _ => .error ""⟩
        "/srv" "/../x" = .error (.PathTraversal "../x" "/srv") ∧
    resolve ⟨fun _ => false, fun _ => false, fun _ => none, fun _ => .error ""⟩
        "/srv" "/../x" = .error (.PathTraversal "../x" "/srv") := by
  have h := (content_resolver_confined
      ⟨fun _ => false, fun _ => false, fun _ => none, fun _ => .error ""⟩
      "/srv" "/../x").2.2 (by decide)
  have e : dropLeadingChars '/' "/../x" = "../x" := by decide
  rw [e] at h
  exact h

/-- C6 (amended): for a request without "..", validate_path yields the
joined target (the root itself for an empty request), and resolve_to_file
follows the order: the target if it is a file; target/README.md if the
target is a directory containing it; NotFound for a directory without it;
otherwise the target with its final extension REPLACED by "md"
(Path::set_extension — appending ".md" only when the final component has
no extension) when that is a file; otherwise NotFound.  In particular an
empty request on a root directory containing README.md resolves to it. -/
theorem resolve_order (fs : FS) (root p : String)
    (h : containsSub (dropLeadingChars '/' p) ".." = false) :
    validate_path root p = .ok (mkTarget root p) ∧
    resolve_to_file fs (mkTarget root p) p =
      (if fs.isFile (mkTarget root p) then .ok (mkTarget root p)
       else if fs.isDir (mkTarget root p) then
         if fs.isFile (mkTarget root p ++ "/README.md") then
           .ok (mkTarget root p ++ "/README.md")
         else .error (.NotFound p)
       else if fs.isFile (setExt (mkTarget root p) "md") then
         .ok (setExt (mkTarget root p) "md")
       else .error (.NotFound p)) ∧
    (dropLeadingChars '/' p = "" → mkTarget root p = root) ∧
    (dropLeadingChars '/' p = "" → fs.isFile root = false → fs.isDir root = true →
      fs.isFile (root ++ "/README.md") = true →
      resolve_to_file fs (mkTarget root p) p = .ok (root ++ "/README.md")) := by
  refine ⟨?_, rfl, ?_, ?_⟩
  · simp [validate_path, mkTarget, h]
  · intro he
    simp [mkTarget, he]
  · intro he hf hd hr
    have hm : mkTarget root p = root := by simp [mkTarget, he]
    rw [hm]
    simp [resolve_to_file, hf, hd, hr]

/-- Witness for C6 (amended): the empty request on a root directory with
a README.md resolves to root/README.md. -/
theorem resolve_order_witness :
    validate_path "/r" "" = .ok (mkTarget "/r" "") ∧
    resolve_to_file
        ⟨fun q => q = "/r/README.md", fun q => q = "/r", fun q => some q, fun _ => .error ""⟩
        (mkTarget "/r" "") "" = .ok ("/r" ++ "/README.md") :=
  ⟨(resolve_order
      ⟨fun q => q = "/r/README.md", fun q => q = "/r", fun q => some q, fun _ => .error ""⟩
      "/r" "" (by decide)).1,
   (resolve_order
      ⟨fun q => q = "/r/README.md", fun q => q = "/r", fun q => some q, fun _ => .error ""⟩
      "/r" "" (by decide)).2.2.2 (by decide) (by decide) (by decide) (by decide)⟩

/-- Counterexample to C6 as stated: for request "file.txt" whose target
is neither a file nor a directory, the source tries file.md
(set_extension), not file.txt.md (append), so a filesystem containing
only /r/file.txt.md yields NotFound where the claimed order resolves. -/
theorem resolve_order_cex :
    resolve_to_file
        ⟨fun q => q = "/r/file.txt.md", fun _ => false, fun q => some q, fun _ => .error ""⟩
        "/r/file.txt" "file.txt" = .error (.NotFound "file.txt") ∧
    resolve_to_file_claim
        ⟨fun q => q = "/r/file.txt.md", fun _ => false, fun q => some q, fun _ => .error ""⟩
        "/r/file.txt" "file.txt" = .ok "/r/file.txt.md" ∧
    validate_path "/r" "file.txt" = .ok "/r/file.txt" :=
  ⟨rfl, rfl, rfl⟩

/-- The spec-to-frontmatter conversion only ever fails with a
FrontmatterParse error. -/
lemma convert_go_error_shape (compile : String → Option (String → Bool))
    (compileErr : String → String) :
    ∀ (l : List (List Json)) (e : Error),
      convert_go compile compileErr l = .error e → ∃ m, e = .FrontmatterParse m
  | [], e, h => by simp [convert_go] at h
  | tp :: rest, e, h => by
    unfold convert_go at h
    split at h
    · exact ⟨_, (Except.error.inj h).symm⟩
    · split at h
      · rename_i e2 hrec
        have := convert_go_error_shape compile compileErr rest e2 hrec
        rcases this with ⟨m, rfl⟩
        exact ⟨m, (Except.error.inj h).symm⟩
      · exact absurd h (by simp)

/-- parse_yaml never reports a missing front-matter block. -/
lemma parse_yaml_no_nofm (compile : String → Option (String → Bool))
    (compileErr : String → String) (yd : String → Except String RawFrontmatter)
    (content : String) :
    parse_yaml compile compileErr yd content ≠ .error .NoFrontmatter := by
  unfold parse_yaml
  split
  · simp
  · unfold convert_raw
    split
    · rename_i e hcg
      rcases convert_go_error_shape compile compileErr _ e hcg with ⟨m, rfl⟩
      simp
    · simp

/-- parse_toml never reports a missing front-matter block. -/
lemma parse_toml_no_nofm (compile : String → Option (String → Bool))
    (compileErr : String → String) (td : String → Except String RawFrontmatter)
    (content : String) :
    parse_toml compile compileErr td content ≠ .error .NoFrontmatter := by
  unfold parse_toml
  split
  · simp
  · unfold convert_raw
    split
    · rename_i e hcg
      rcases convert_go_error_shape compile compileErr _ e hcg with ⟨m, rfl⟩
      simp
    · simp

/-- C9 (amended): parse_frontmatter reports NoFrontmatter exactly when
neither delimiter shape extracts, where the YAML (resp. TOML) shape only
requires the document head, after leading whitespace, to START with "---"
(resp. "+++") and some later newline to be followed by "---" (resp.
"+++") — the closing line need not consist solely of the delimiter, and
any text after the opening delimiter on its line joins the inner text;
the inner text is decoded with the corresponding format and every
decoding failure yields FrontmatterParse. -/
theorem frontmatter_shapes (compile : String → Option (String → Bool))
    (compileErr : String → String) (yd td : String → Except String RawFrontmatter)
    (content : String) :
    (parse_frontmatter compile compileErr yd td content = .error .NoFrontmatter ↔
      extract_yaml_frontmatter content = none ∧ extract_toml_frontmatter content = none) ∧
    (extract_yaml_frontmatter content = none ↔
      (strStartsWith (trimStartStr content) "---" = false ∨
       findSubIdxL "
---".toList ((trimStartStr content).toList.drop 3) = none)) ∧
    (extract_toml_frontmatter content = none ↔
      (strStartsWith (trimStartStr content) "+++" = false ∨
       findSubIdxL "
+++".toList ((trimStartStr content).toList.drop 3) = none)) ∧
    (∀ inner, extract_yaml_frontmatter content = some inner →
      ∀ e, yd inner = .error e →
        parse_frontmatter compile compileErr yd td content
          = .error (.FrontmatterParse ("YAML parse error: " ++ e))) ∧
    (extract_yaml_frontmatter content = none →
      ∀ inner, extract_toml_frontmatter content = some inner →
      ∀ e, td inner = .error e →
        parse_frontmatter compile compileErr yd td content
          = .error (.FrontmatterParse ("TOML parse error: " ++ e))) := by
  refine ⟨?_, ?_, ?_, ?_, ?_⟩
  · unfold parse_frontmatter
    cases hy : extract_yaml_frontmatter content with
    | some y => simp [parse_yaml_no_nofm compile compileErr yd y]
    | none =>
      cases ht : extract_toml_frontmatter content with
      | some t => simp [parse_toml_no_nofm compile compileErr td t]
      | none => simp
  · unfold extract_yaml_frontmatter
    cases hsw : strStartsWith (trimStartStr content) "---" with
    | false => simp [hsw]
    | true => simp [hsw, Option.map_eq_none']
  · unfold extract_toml_frontmatter
    cases hsw : strStartsWith (trimStartStr content) "+++" with
    | false => simp [hsw]
    | true => simp [hsw, Option.map_eq_none']
  · intro inner hy e he
    simp [parse_frontmatter, hy, parse_yaml, he]
  · intro hy inner ht e he
    simp [parse_frontmatter, hy, ht, parse_toml, he]

/-- Witness for C9 at a concrete YAML-shaped document and a failing
decoder. -/
theorem frontmatter_shapes_witness :
    parse_frontmatter (fun _ => none) (fun _ => "") (fun _ => .error "bad")
        (fun _ => .ok ⟨[]⟩) "---
X
---
"
      = .error (.FrontmatterParse ("YAML parse error: " ++ "bad")) :=
  (frontmatter_shapes (fun _ => none) (fun _ => "") (fun _ => .error "bad")
    (fun _ => .ok ⟨[]⟩) "---
X
---
").2.2.2.1 "X" (by decide) "bad" rfl

/-- Counterexample to C9 as stated: a document whose only line consisting
of "---" is the opening one (the closing line is "--- trailing") is still
accepted by the source, though the claimed shape requires a later line
whose entire content is "---" and demands NoFrontmatter otherwise. -/
theorem frontmatter_shapes_cex :
    parse_frontmatter (fun _ => none) (fun _ => "") (fun _ => .ok ⟨[]⟩)
        (fun _ => .ok ⟨[]⟩) "---
tools: []
--- trailing
"
      ≠ .error .NoFrontmatter ∧
    (linesOf "---
tools: []
--- trailing
").headD "" = "---" ∧
    ((linesOf "---
tools: []
--- trailing
").drop 1).all
      (fun l => !(l = "---" : Bool)) = true := by
  refine ⟨?_, by decide, by decide⟩
  have e : parse_frontmatter (fun _ => none) (fun _ => "") (fun _ => .ok ⟨[]⟩)
      (fun _ => .ok ⟨[]⟩) "---
tools: []
--- trailing
"
      = .ok ⟨[], []⟩ := rfl
  rw [e]
  simp

/-- C4 (code behaviour at the failing input): when a hostname resolves to
a private address, the Security error embeds the DNS-resolved IP, and the
client-visible user_message therefore echoes an address that appears
nowhere in the client-supplied URL. -/
theorem curl_dns_leak :
    execute_curl ⟨1048576, 1000⟩
        (fun s => if s = "http://attacker.example/" then
            .ok ⟨"http", some "attacker.example", none, "http://attacker.example/"⟩
          else .error "relative URL without a base")
        (fun _ => none)
        (fun a => if a = "attacker.example:80" then .ok [.v4 10 0 0 1] else .error "unresolved")
        (fun _ _ => .ok "body")
        "http://attacker.example/" .Get
      = .error (.Security ("Access to private IP blocked: " ++ ipRender (.v4 10 0 0 1))) ∧
    Error.user_message (.Security ("Access to private IP blocked: " ++ ipRender (.v4 10 0 0 1)))
      = "Security violation: Access to private IP blocked: 10.0.0.1" ∧
    containsSub "Security violation: Access to private IP blocked: 10.0.0.1" "10.0.0.1" = true ∧
    containsSub "http://attacker.example/" "10.0.0.1" = false := by
  refine ⟨by decide, by decide, by decide, by decide⟩

end Toolfront
